import Mathlib

/-!
Verification development for the LXD privileged-helper network core:
the SCM_RIGHTS fd-passing channel (`shared/netutils/unixfd.c`), the
netlink transport (`shared/network.c`) and the namespace-aware interface
enumerator (`shared/netutils/netns_getifaddrs.c`), shallowly embedded as
executable Lean functions together with theorems about their
error-handling and resource discipline.
-/

namespace Lxd

/-! ### errno values (asm-generic/errno) used by the C sources -/

def EINTR : Nat := 4
def EBADF : Nat := 9
def EAGAIN : Nat := 11
def ENOMEM : Nat := 12
def EINVAL : Nat := 22
def EFBIG : Nat := 27
def EMSGSIZE : Nat := 90

/-! ### unixfd.h constants -/

def KERNEL_SCM_MAX_FD : Nat := 253

def UNIX_FDS_ACCEPT_EXACT : Nat := 1 <<< 0
def UNIX_FDS_ACCEPT_LESS : Nat := 1 <<< 1
def UNIX_FDS_ACCEPT_MORE : Nat := 1 <<< 2
def UNIX_FDS_ACCEPT_NONE : Nat := 1 <<< 3
def UNIX_FDS_ACCEPT_MASK : Nat :=
  UNIX_FDS_ACCEPT_EXACT ||| UNIX_FDS_ACCEPT_LESS |||
  UNIX_FDS_ACCEPT_MORE ||| UNIX_FDS_ACCEPT_NONE

def UNIX_FDS_RECEIVED_EXACT : Nat := 1 <<< 16
def UNIX_FDS_RECEIVED_LESS : Nat := 1 <<< 17
def UNIX_FDS_RECEIVED_MORE : Nat := 1 <<< 18
def UNIX_FDS_RECEIVED_NONE : Nat := 1 <<< 19

/-- Bit complement of a mask on a 32-bit quantity, as C's `~` applied to a
`__u32` value. -/
def compl32 (m : Nat) : Nat := 0xFFFFFFFF ^^^ m

/-- Population count of the low 32 bits, as the kernel-style `hweight32`
used by `unixfd.c`. -/
def hweightAux : Nat → Nat → Nat
  | 0, _ => 0
  | k + 1, x => x % 2 + hweightAux k (x / 2)

def hweight32 (x : Nat) : Nat := hweightAux 32 x

/-! ### struct unix_fds (unixfd.h)

The C struct carries a 253-slot fd array; we model the array as a total
function from slot index to stored value (`__s32`). -/

structure unix_fds where
  fd_count_max : Nat
  fd_count_ret : Nat
  flags : Nat
  fd : Nat → Int

/-! ### Kernel side of one `recvmsg` call

Each attempt models one return of `recvmsg(fd, &msg, MSG_CMSG_CLOEXEC)`:
`intr` is a failure with `errno == EINTR` (retried by the C code),
`fail e` any other failure, and `ok bytes ctrunc rights` a delivery of
`bytes` payload bytes (`bytes = 0` models the peer having closed; the
sending side of this channel always transmits at least one payload byte),
with `ctrunc` the `MSG_CTRUNC` flag and `rights` the decoded fd list of
the first `SCM_RIGHTS` control message, if one was delivered.  Control
messages other than `SCM_RIGHTS` (e.g. the `SCM_CREDENTIALS` one) are
skipped by the C loop and therefore not modelled. -/

inductive RecvAttempt where
  | intr
  | fail (e : Nat)
  | ok (bytes : Nat) (ctrunc : Bool) (rights : Option (List Int))

/-- Result of `lxc_abstract_unix_recv_fds_iov`: the C return value
(negative errno on failure, `0` on peer close, payload byte count on
success), the final state of the caller's `unix_fds` structure, the list
of file descriptors the call itself closed, and the number of `recvmsg`
system calls it performed. -/
structure RecvFdsResult where
  retval : Int
  fds : unix_fds
  closed : List Int
  recvCalls : Nat

/-- Cardinality classification of `unixfd.c:139-173`.  On a disallowed
mismatch it returns the fds to close (`error`); otherwise the updated
struct, the (possibly capped) `num_raw`, and the fds closed so far. -/
def recv_fds_classify (ret_fds : unix_fds) (raw : List Int) :
    Except (List Int) (unix_fds × Nat × List Int) :=
  let num_raw := raw.length
  if ret_fds.fd_count_max > num_raw then
    if ret_fds.flags &&& UNIX_FDS_ACCEPT_LESS = 0 then
      .error raw
    else
      .ok ({ ret_fds with
              fd := fun idx =>
                if num_raw ≤ idx ∧ idx < ret_fds.fd_count_max then -(EBADF : Int)
                else ret_fds.fd idx,
              flags := ret_fds.flags ||| UNIX_FDS_RECEIVED_LESS },
           num_raw, [])
  else if ret_fds.fd_count_max < num_raw then
    if ret_fds.flags &&& UNIX_FDS_ACCEPT_MORE = 0 then
      .error raw
    else
      .ok ({ ret_fds with flags := ret_fds.flags ||| UNIX_FDS_RECEIVED_MORE },
           ret_fds.fd_count_max, raw.drop ret_fds.fd_count_max)
  else
    .ok ({ ret_fds with flags := ret_fds.flags ||| UNIX_FDS_RECEIVED_EXACT },
         num_raw, [])

/-- Defensive received-flag check and fd-array commit of
`unixfd.c:175-184`: if more than one `UNIX_FDS_RECEIVED_*` flag ended up
set, close the first `num_raw` raw fds and fail; otherwise copy them into
the caller's array and record the count. -/
def recv_fds_commit (fds : unix_fds) (raw : List Int) (num_raw : Nat) :
    Except (List Int) unix_fds :=
  if hweight32 (fds.flags &&& compl32 UNIX_FDS_ACCEPT_MASK) > 1 then
    .error (raw.take num_raw)
  else
    .ok { fds with
          fd := fun idx => if idx < num_raw then raw.getD idx (fds.fd idx) else fds.fd idx,
          fd_count_ret := num_raw }

/-- Zero-descriptor epilogue of `unixfd.c:188-197`: when nothing was
recorded, flag `RECEIVED_NONE` and fail unless the caller tolerates an
empty batch. -/
def recv_fds_finish (fds : unix_fds) (bytes : Nat) (closed : List Int) :
    Int × unix_fds × List Int :=
  if fds.fd_count_ret = 0 then
    let fds := { fds with flags := fds.flags ||| UNIX_FDS_RECEIVED_NONE }
    if fds.flags &&& UNIX_FDS_ACCEPT_MASK ≠ 0 ∧
       fds.flags &&& UNIX_FDS_ACCEPT_NONE = 0 then
      (-(EINVAL : Int), fds, closed)
    else
      ((bytes : Int), fds, closed)
  else
    ((bytes : Int), fds, closed)

/-- Processing of one successfully received message
(`unixfd.c:105-197`): scan for the `SCM_RIGHTS` control message, enforce
the kernel fd ceiling and the truncation flag (closing everything decoded
on violation), classify the received cardinality, commit, and run the
zero-descriptor epilogue. -/
def recv_fds_msg (ret_fds : unix_fds) (bytes : Nat) (ctrunc : Bool)
    (rights : Option (List Int)) : Int × unix_fds × List Int :=
  match rights with
  | none => recv_fds_finish ret_fds bytes []
  | some raw =>
      if raw.length ≥ KERNEL_SCM_MAX_FD then
        (-(EFBIG : Int), ret_fds, raw)
      else if ctrunc then
        (-(EFBIG : Int), ret_fds, raw)
      else
        match recv_fds_classify ret_fds raw with
        | .error toClose => (-(EINVAL : Int), ret_fds, toClose)
        | .ok (fds, num_raw, closed) =>
            match recv_fds_commit fds raw num_raw with
            | .error toClose => (-(EINVAL : Int), fds, closed ++ toClose)
            | .ok fds2 => recv_fds_finish fds2 bytes closed

/-- The `again:` retry loop around `recvmsg` (`unixfd.c:93-102`): retry
on `EINTR`, surface any other failure, return `0` on peer close.  `none`
models the call still blocking (no further kernel outcome supplied). -/
def recv_fds_loop (ret_fds : unix_fds) :
    List RecvAttempt → Nat → Option RecvFdsResult
  | [], _ => none
  | .intr :: rest, n => recv_fds_loop ret_fds rest (n + 1)
  | .fail e :: _, n => some ⟨-(e : Int), ret_fds, [], n + 1⟩
  | .ok bytes ctrunc rights :: _, n =>
      if bytes = 0 then
        some ⟨0, ret_fds, [], n + 1⟩
      else
        let (r, fds, closed) := recv_fds_msg ret_fds bytes ctrunc rights
        some ⟨r, fds, closed, n + 1⟩

/-- Model of `lxc_abstract_unix_recv_fds_iov` (`unixfd.c:61-198`).  The
four precondition checks run before any system call; the `zalloc` of the
control buffer is assumed to succeed (its failure path performs no
system call and decodes no descriptor either). -/
def lxc_abstract_unix_recv_fds_iov (ret_fds : unix_fds)
    (attempts : List RecvAttempt) : Option RecvFdsResult :=
  if ret_fds.flags &&& compl32 UNIX_FDS_ACCEPT_MASK ≠ 0 then
    some ⟨-(EINVAL : Int), ret_fds, [], 0⟩
  else if hweight32 (ret_fds.flags &&& compl32 UNIX_FDS_ACCEPT_NONE) > 1 then
    some ⟨-(EINVAL : Int), ret_fds, [], 0⟩
  else if ret_fds.fd_count_max ≥ KERNEL_SCM_MAX_FD then
    some ⟨-(EINVAL : Int), ret_fds, [], 0⟩
  else if ret_fds.fd_count_ret ≠ 0 then
    some ⟨-(EINVAL : Int), ret_fds, [], 0⟩
  else
    recv_fds_loop ret_fds attempts 0

/-- The conjunction of the four precondition checks of `unixfd.c:71-81`,
as one boolean. -/
def recv_precheck_ok (u : unix_fds) : Bool :=
  decide (u.flags &&& compl32 UNIX_FDS_ACCEPT_MASK = 0) &&
  decide (hweight32 (u.flags &&& compl32 UNIX_FDS_ACCEPT_NONE) ≤ 1) &&
  decide (u.fd_count_max < KERNEL_SCM_MAX_FD) &&
  decide (u.fd_count_ret = 0)

/-- How many of the four accept policies {EXACT, LESS, MORE, NONE} a flag
word names (spec-side reading of "the accept policy names ... of"). -/
def acceptPolicyNameCount (flags : Nat) : Nat :=
  [UNIX_FDS_ACCEPT_EXACT, UNIX_FDS_ACCEPT_LESS,
   UNIX_FDS_ACCEPT_MORE, UNIX_FDS_ACCEPT_NONE].countP
    (fun b => flags &&& b ≠ 0)

/-! ## Netlink transport (`shared/network.c`) -/

def NLMSG_DONE : Nat := 3
def NLMSG_ERROR : Nat := 2
def RTM_NEWLINK : Nat := 16
def IFLA_STATS64 : Nat := 23
def IFNAMSIZ : Nat := 16
def IFADDRS_HASH_SIZE : Nat := 64
def AF_INET : Nat := 2
def AF_INET6 : Nat := 10
def AF_PACKET : Nat := 17

/-- One outcome of a `sendmsg` call on the netlink socket. -/
inductive SendAttempt where
  | sintr
  | sfail (e : Nat)
  | sok (n : Nat)

/-- Model of `__netlink_send` (`network.c:196-221`): `sendmsg` is invoked
exactly once — the function body contains no retry loop, so the `rest`
oracle of further kernel outcomes is never consulted.  Returns the
result of the single call together with the number of `sendmsg` calls
performed. -/
def __netlink_send (first : SendAttempt) (rest : List SendAttempt) :
    (Except Nat Nat) × Nat :=
  match first, rest with
  | .sintr, _ => (.error EINTR, 1)
  | .sfail e, _ => (.error e, 1)
  | .sok n, _ => (.ok n, 1)

/-- Modelled from the spec: "`send(frame)` writes once, retrying
transparently only on interrupted-call (EINTR); never retries other
errors" — a send that consumes further outcomes while they are EINTR.
Second component counts `sendmsg` calls. -/
def netlink_send_spec : SendAttempt → List SendAttempt → (Except Nat Nat) × Nat
  | .sintr, next :: rest =>
      let (r, n) := netlink_send_spec next rest
      (r, n + 1)
  | .sintr, [] => (.error EINTR, 1)
  | .sfail e, _ => (.error e, 1)
  | .sok n, _ => (.ok n, 1)

/-- A netlink reply frame as inspected by `netlink_transaction`:
its `nlmsg_type` and, when it is an error frame, the `error` field of the
embedded `struct nlmsgerr`. -/
structure NlAnswer where
  nlmsg_type : Nat
  err_error : Int

/-- Model of `netlink_transaction` (`network.c:223-245`): send, receive,
then inspect the reply; an error frame sets `errno` to the negated
embedded code, and the call fails iff that code is negative.  `sendRes`
and `recvRes` are the outcomes of `__netlink_send` and `netlink_recv`
(which preserve `errno` on failure); `errnoIn` is the thread `errno`
entering the inspection, returned unchanged when untouched.  Result is
`(return value, errno)`. -/
def netlink_transaction (sendRes : Except Nat Nat)
    (recvRes : Except Nat NlAnswer) (errnoIn : Int) : Int × Int :=
  match sendRes with
  | .error e => (-1, (e : Int))
  | .ok _ =>
    match recvRes with
    | .error e => (-1, (e : Int))
    | .ok answer =>
      if answer.nlmsg_type = NLMSG_ERROR then
        if answer.err_error < 0 then (-1, -answer.err_error)
        else (0, -answer.err_error)
      else (0, errnoIn)

/-! ## Interface enumerator (`shared/netutils/netns_getifaddrs.c`)

Sockaddr storage (`union sockany`) is modelled by value: address family,
raw address bytes, the IPv6 scope id, and the link-layer hardware type
and ifindex of `struct sockaddr_ll`. -/

structure SockAny where
  family : Nat
  bytes : List Nat
  scopeId : Nat
  hatype : Nat
  llIfindex : Nat

def zeroSockAny : SockAny := ⟨0, [], 0, 0, 0⟩

/-- The `__IN6_IS_ADDR_LINKLOCAL` test of `network.c:84-85`. -/
def in6IsLinkLocal (a : List Nat) : Bool :=
  a.getD 0 0 = 0xfe && (a.getD 1 0) &&& 0xc0 = 0x80

/-- The `__IN6_IS_ADDR_MC_LINKLOCAL` test of `network.c:87-88`
(`IN6_IS_ADDR_MULTICAST` is a first byte of 0xff). -/
def in6IsMcLinkLocal (a : List Nat) : Bool :=
  a.getD 0 0 = 0xff && (a.getD 1 0) &&& 0xf = 2

/-- Model of `copy_addr` (`netns_getifaddrs.c:103-133`): for the two
handled families copy the fixed-width address when the attribute payload
is long enough, setting the IPv6 scope id to the owning ifindex for
link-local (unicast or multicast) addresses; `none` means the target
sockaddr pointer is left unset. -/
def copy_addr (af : Nat) (addr : List Nat) (addrlen : Nat) (ifindex : Nat) :
    Option SockAny :=
  if af = AF_INET then
    if addrlen < 4 then none
    else some ⟨af, addr.take 4, 0, 0, 0⟩
  else if af = AF_INET6 then
    let scope := if in6IsLinkLocal addr || in6IsMcLinkLocal addr then ifindex else 0
    if addrlen < 16 then none
    else some ⟨af, addr.take 16, scope, 0, 0⟩
  else none

/-- The 16-byte mask buffer built by `gen_netmask`
(`netns_getifaddrs.c:135-152`) before `copy_addr` trims it to the
family's width: clamp the prefix to 128, fill `prefix / 8` bytes with
0xFF, write the truncated partial byte `0xFF << (8 - prefix % 8)` next,
leave the rest zero. -/
def gen_netmask_buf (prefixlen : Nat) : List Nat :=
  let p := if prefixlen > 128 then 128 else prefixlen
  let i := p / 8
  (List.range 16).map fun j =>
    if j < i then 0xff
    else if j = i then (0xff <<< (8 - p % 8)) % 256
    else 0

/-- Model of `gen_netmask`: derive the netmask sockaddr from the numeric
prefix length (`copy_addr` is called with `addrlen = 16` and
`ifindex = 0`). -/
def gen_netmask (af : Nat) (prefixlen : Nat) : Option SockAny :=
  copy_addr af (gen_netmask_buf prefixlen) 16 0

/-- Model of `copy_lladdr` (`netns_getifaddrs.c:154-168`): bounded copy
of a link-layer address into the extended `sockaddr_ll_hack` slot
(capacity 24 bytes). -/
def copy_lladdr (addr : List Nat) (ifindex : Nat) (hatype : Nat) :
    Option SockAny :=
  if addr.length > 24 then none
  else some ⟨AF_PACKET, addr, 0, hatype, ifindex⟩

/-- Bit `k` (most-significant first, network order) of a byte string. -/
def maskBit (bytes : List Nat) (k : Nat) : Bool :=
  (bytes.getD (k / 8) 0 >>> (7 - k % 8)) &&& 1 == 1

/-- Byte string of a derived netmask (empty when no mask was set). -/
def netmaskBytes (af : Nat) (prefixlen : Nat) : List Nat :=
  ((gen_netmask af prefixlen).map SockAny.bytes).getD []

/-- Fixed `ifinfomsg` header fields read from a link frame. -/
structure LinkInfo where
  ifi_index : Nat
  ifi_flags : Nat
  ifi_type : Nat

/-- Fixed `ifaddrmsg` header fields read from an address frame. -/
structure AddrInfo where
  ifa_index : Nat
  ifa_family : Nat
  ifa_prefixlen : Nat

/-- TLV attributes of a link-dump frame handled by `nl_msg_to_ifaddr`
(`netns_getifaddrs.c:208-247`).  `datalen` is `__RTA_DATALEN(rta)` where
the C checks it. -/
inductive LinkAttr where
  | ifname (name : String) (datalen : Nat)
  | lladdress (bytes : List Nat)
  | llbroadcast (bytes : List Nat)
  | stats64 (blob : List Nat)
  | mtu (v : Int)
  | targetNetnsid
  | link (peer : Nat) (datalen : Nat)
  | otherLink (t : Nat)

/-- TLV attributes of an address-dump frame handled by `nl_msg_to_ifaddr`
(`netns_getifaddrs.c:260-312`). -/
inductive AddrAttr where
  | address (bytes : List Nat)
  | broadcast (bytes : List Nat)
  | local_ (bytes : List Nat)
  | label_ (name : String) (datalen : Nat)
  | targetNetnsid
  | otherAddr (t : Nat)

/-- One `struct ifaddrs_storage` record.  `id` is an allocation-ledger
tag identifying the `calloc` that produced the record (it stands for the
record's address); `index` is the hash key (`ifs->index`, set only for
link records); pointer fields of `struct netns_ifaddrs` become options. -/
structure Storage where
  id : Nat
  index : Nat
  name : Option String
  ifa_ifindex : Nat
  ifa_ifindex_peer : Nat
  ifa_flags : Nat
  ifa_mtu : Int
  ifa_prefixlen : Nat
  ifa_stats_type : Nat
  stats64 : List Nat
  addr : Option SockAny
  netmask : Option SockAny
  ifu : Option SockAny

/-- The enumeration context (`struct ifaddrs_ctx`) plus the verification
ledger: `recs` is the `first`/`last` output chain in append order,
`hash` the 64 collision-chain buckets (most recently inserted first),
`freed` the ledger of record ids already passed to `free`, `nextId` the
next fresh allocation id, and `allocs` an oracle of `calloc` outcomes
(exhausted oracle means success). -/
structure Ctx where
  nextId : Nat
  recs : List Storage
  hash : Nat → List Storage
  freed : List Nat
  allocs : List Bool

def ctx0 (allocs : List Bool) : Ctx :=
  ⟨0, [], fun _ => [], [], allocs⟩

/-- Pop one `calloc` outcome from the oracle. -/
def allocPop (ctx : Ctx) : Bool × Ctx :=
  match ctx.allocs with
  | [] => (true, ctx)
  | b :: rest => (b, { ctx with allocs := rest })

/-- Hash insertion of `netns_getifaddrs.c:249-253`: push at the head of
the bucket chosen by `index % IFADDRS_HASH_SIZE`. -/
def hashInsert (h : Nat → List Storage) (ifs : Storage) : Nat → List Storage :=
  fun b => if b = ifs.index % IFADDRS_HASH_SIZE then ifs :: h b else h b

/-- Hash lookup of `netns_getifaddrs.c:189-192`: scan the bucket for the
first record with matching index. -/
def hashLookup (h : Nat → List Storage) (idx : Nat) : Option Storage :=
  (h (idx % IFADDRS_HASH_SIZE)).find? (fun s => s.index = idx)

/-- A freshly `calloc`ed record filled with the link-frame header fields
(`netns_getifaddrs.c:197-206`). -/
def freshLinkStorage (id : Nat) (ifi : LinkInfo) : Storage :=
  { id := id, index := ifi.ifi_index, name := none,
    ifa_ifindex := ifi.ifi_index, ifa_ifindex_peer := 0,
    ifa_flags := ifi.ifi_flags, ifa_mtu := 0, ifa_prefixlen := 0,
    ifa_stats_type := 0, stats64 := [], addr := none, netmask := none,
    ifu := none }

/-- A freshly `calloc`ed record for an address frame, seeded from the
owning link record (`netns_getifaddrs.c:255-258`). -/
def freshAddrStorage (id : Nat) (ifs0 : Storage) : Storage :=
  { id := id, index := 0, name := ifs0.name,
    ifa_ifindex := ifs0.ifa_ifindex, ifa_ifindex_peer := 0,
    ifa_flags := ifs0.ifa_flags, ifa_mtu := ifs0.ifa_mtu,
    ifa_prefixlen := 0, ifa_stats_type := 0, stats64 := [], addr := none,
    netmask := none, ifu := none }

/-- One step of the link-frame attribute switch
(`netns_getifaddrs.c:210-246`), threading the `netnsid_aware` flag. -/
def processLinkAttr (ifi : LinkInfo) (st : Storage × Bool) (a : LinkAttr) :
    Storage × Bool :=
  let (ifs, aware) := st
  match a with
  | .ifname s datalen =>
      if datalen < IFNAMSIZ + 1 then ({ ifs with name := some s }, aware)
      else st
  | .lladdress b =>
      match copy_lladdr b ifi.ifi_index ifi.ifi_type with
      | some sa => ({ ifs with addr := some sa }, aware)
      | none => st
  | .llbroadcast b =>
      match copy_lladdr b ifi.ifi_index ifi.ifi_type with
      | some sa => ({ ifs with ifu := some sa }, aware)
      | none => st
  | .stats64 blob =>
      ({ ifs with ifa_stats_type := IFLA_STATS64, stats64 := blob }, aware)
  | .mtu v => ({ ifs with ifa_mtu := v }, aware)
  | .targetNetnsid => (ifs, true)
  | .link peer datalen =>
      if datalen ≠ 0 then ({ ifs with ifa_ifindex_peer := peer }, aware)
      else st
  | .otherLink _ => st

/-- One step of the address-frame attribute switch
(`netns_getifaddrs.c:262-311`), threading the `netnsid_aware` flag.  On
`IFA_LOCAL` with an address already present, the stored address moves to
the destination slot and the address storage is zeroed before the copy
— on a failing copy the C address pointer keeps pointing at the zeroed
storage, modelled by `some zeroSockAny`. -/
def processAddrAttr (ifa : AddrInfo) (st : Storage × Bool) (a : AddrAttr) :
    Storage × Bool :=
  let (ifs, aware) := st
  match a with
  | .address b =>
      if ifs.addr.isSome then
        match copy_addr ifa.ifa_family b b.length ifa.ifa_index with
        | some sa => ({ ifs with ifu := some sa }, aware)
        | none => st
      else
        match copy_addr ifa.ifa_family b b.length ifa.ifa_index with
        | some sa => ({ ifs with addr := some sa }, aware)
        | none => st
  | .broadcast b =>
      match copy_addr ifa.ifa_family b b.length ifa.ifa_index with
      | some sa => ({ ifs with ifu := some sa }, aware)
      | none => st
  | .local_ b =>
      let ifs :=
        if ifs.addr.isSome then
          { ifs with ifu := ifs.addr, addr := some zeroSockAny }
        else ifs
      match copy_addr ifa.ifa_family b b.length ifa.ifa_index with
      | some sa => ({ ifs with addr := some sa }, aware)
      | none => (ifs, aware)
  | .label_ s datalen =>
      if datalen < IFNAMSIZ + 1 then ({ ifs with name := some s }, aware)
      else st
  | .targetNetnsid => (ifs, true)
  | .otherAddr _ => st

/-- The commit tail of `nl_msg_to_ifaddr` (`netns_getifaddrs.c:321-331`):
a record that resolved a name is appended to the output chain, an
unnamed one is freed. -/
def commitRecord (ctx : Ctx) (ifs : Storage) : Ctx :=
  if ifs.name.isSome then { ctx with recs := ctx.recs ++ [ifs] }
  else { ctx with freed := ctx.freed ++ [ifs.id] }

/-- Frames consumed by the dump loop.  Any frame that is not
`NLMSG_DONE`, `NLMSG_ERROR` or `RTM_NEWLINK` is treated by the callback
as an address frame, which `newaddr` models.  `errorFrame` carries the
embedded `nlmsgerr.error` code. -/
inductive NlMsg where
  | done
  | errorFrame (errCode : Int)
  | newlink (ifi : LinkInfo) (attrs : List LinkAttr)
  | newaddr (ifa : AddrInfo) (attrs : List AddrAttr)

/-- Model of the callback `nl_msg_to_ifaddr`
(`netns_getifaddrs.c:170-334`).  For a link frame: allocate, fill from
header and attributes, hash-insert if named, commit.  For an address
frame: look the owning link record up by ifindex and drop the frame
entirely when absent (before any allocation); otherwise allocate, seed,
fill, derive the netmask when an address was set, commit.  Errors carry
`errno` (`ENOMEM`). -/
def nl_msg_to_ifaddr (ctx : Ctx) (aware : Bool) :
    NlMsg → Except Nat (Ctx × Bool)
  | .newlink ifi attrs =>
      let (ok, ctx) := allocPop ctx
      if !ok then .error ENOMEM
      else
        let ifs0 := freshLinkStorage ctx.nextId ifi
        let (ifs, aware) := attrs.foldl (processLinkAttr ifi) (ifs0, aware)
        let ctx := { ctx with nextId := ctx.nextId + 1 }
        let ctx :=
          if ifs.name.isSome then { ctx with hash := hashInsert ctx.hash ifs }
          else ctx
        .ok (commitRecord ctx ifs, aware)
  | .newaddr ifa attrs =>
      match hashLookup ctx.hash ifa.ifa_index with
      | none => .ok (ctx, aware)
      | some ifs0 =>
          let (ok, ctx) := allocPop ctx
          if !ok then .error ENOMEM
          else
            let ifs1 := freshAddrStorage ctx.nextId ifs0
            let (ifs2, aware) := attrs.foldl (processAddrAttr ifa) (ifs1, aware)
            let ifs :=
              if ifs2.addr.isSome then
                { ifs2 with
                  netmask := gen_netmask ifa.ifa_family ifa.ifa_prefixlen,
                  ifa_prefixlen := ifa.ifa_prefixlen }
              else ifs2
            let ctx := { ctx with nextId := ctx.nextId + 1 }
            .ok (commitRecord ctx ifs, aware)
  | .done => .ok (ctx, aware)
  | .errorFrame _ => .ok (ctx, aware)

/-- One `recv` outcome of the dump loop (`netns_getifaddrs.c:402-404`):
either a failure (`recv` returned `<= 0`, `errno = e`) or a buffer of
parsed frames. -/
inductive RecvChunk where
  | rfail (e : Nat)
  | chunk (msgs : List NlMsg)

/-- Outcome of consuming one received buffer. -/
inductive LoopStep where
  | finished (ctx : Ctx) (aware : Bool)
  | failed (e : Nat) (ctx : Ctx) (aware : Bool)
  | more (ctx : Ctx) (aware : Bool)

/-- The inner frame walk of `__netlink_recv`
(`netns_getifaddrs.c:406-419`): `NLMSG_DONE` ends the dump
successfully, `NLMSG_ERROR` fails with the generic `EINVAL` (the
embedded code is not decoded on this path), any other frame goes to the
callback whose failure aborts the dump. -/
def processChunk (ctx : Ctx) (aware : Bool) : List NlMsg → LoopStep
  | [] => .more ctx aware
  | .done :: _ => .finished ctx aware
  | .errorFrame _ :: _ => .failed EINVAL ctx aware
  | msg :: rest =>
      match nl_msg_to_ifaddr ctx aware msg with
      | .error e => .failed e ctx aware
      | .ok (ctx', aware') => processChunk ctx' aware' rest

/-- The outer receive loop of `__netlink_recv`
(`netns_getifaddrs.c:401-420`), reading buffer after buffer until DONE
or an error.  An exhausted oracle models `recv(..., MSG_DONTWAIT)`
finding nothing to read (`EAGAIN`). -/
def __netlink_recv_loop (ctx : Ctx) (aware : Bool) :
    List RecvChunk → (Except Nat Unit) × Ctx × Bool
  | [] => (.error EAGAIN, ctx, aware)
  | .rfail e :: _ => (.error e, ctx, aware)
  | .chunk msgs :: rest =>
      match processChunk ctx aware msgs with
      | .finished c a => (.ok (), c, a)
      | .failed e c a => (.error e, c, a)
      | .more c a => __netlink_recv_loop c a rest

/-- Model of `__netlink_recv` (`netns_getifaddrs.c:340-421`): build and
send the dump request (request construction is not value-relevant here),
then consume frames until DONE or failure. -/
def __netlink_recv (send1 : SendAttempt) (ctx : Ctx) (aware : Bool)
    (chunks : List RecvChunk) : (Except Nat Unit) × Ctx × Bool :=
  match (__netlink_send send1 []).1 with
  | .error e => (.error e, ctx, aware)
  | .ok _ => __netlink_recv_loop ctx aware chunks

/-- Kernel-side inputs of one enumeration call: socket creation outcome,
strict-validation `setsockopt` outcome (with its `errno`), the target
namespace id, the `sendmsg` outcome and frame chunks of each dump phase,
and the `calloc` oracle. -/
structure EnumInput where
  sockFail : Option Nat
  strictOk : Bool
  strictErr : Nat
  netns_id : Int
  linkSend : SendAttempt
  linkChunks : List RecvChunk
  addrSend : SendAttempt
  addrChunks : List RecvChunk
  allocs : List Bool

/-- Model of `__rtnl_enumerate` (`netns_getifaddrs.c:423-459`): open the
socket, request strict validation (mandatory only when a namespace id
was supplied), run the link dump then the address dump, and report
namespace-id awareness only when both phases confirmed it. -/
def __rtnl_enumerate (inp : EnumInput) : (Except Nat Unit) × Ctx × Bool :=
  match inp.sockFail with
  | some e => (.error e, ctx0 inp.allocs, false)
  | none =>
    if !inp.strictOk ∧ inp.netns_id ≥ 0 then
      (.error inp.strictErr, ctx0 inp.allocs, false)
    else
      match __netlink_recv inp.linkSend (ctx0 inp.allocs) false inp.linkChunks with
      | (.error e, ctx1, _) => (.error e, ctx1, false)
      | (.ok _, ctx1, aw1) =>
          match __netlink_recv inp.addrSend ctx1 false inp.addrChunks with
          | (r2, ctx2, aw2) => (r2, ctx2, aw1 && aw2)

/-- Result of `netns_getifaddrs`: C return value, `errno` on failure
(`0` stands for the untouched success case), the output list handed to
the caller (only on success), and the allocation ledger after the call
(`nextId` allocations were made, `freed` were released). -/
structure EnumResult where
  retval : Int
  errnoV : Nat
  ifap : Option (List Storage)
  nextId : Nat
  freed : List Nat
  aware : Bool

/-- Model of `netns_getifaddrs` (`netns_getifaddrs.c:461-480`): run the
enumeration; on failure walk the whole output chain with
`netns_freeifaddrs`, freeing every record in it, and hand nothing to the
caller; on success hand over the chain. -/
def netns_getifaddrs (inp : EnumInput) : EnumResult :=
  match __rtnl_enumerate inp with
  | (.error e, ctx, aware) =>
      ⟨-1, e, none, ctx.nextId, ctx.freed ++ ctx.recs.map Storage.id, aware⟩
  | (.ok _, ctx, aware) =>
      ⟨0, 0, some ctx.recs, ctx.nextId, ctx.freed, aware⟩

/-- Allocation-ledger invariant of the enumeration context: every
allocated record id is either already freed or reachable through the
output chain (so freeing the chain frees everything); chain records
carry allocation ids below the counter, pairwise distinct, and all of
them resolved a name. -/
def CtxInv (ctx : Ctx) : Prop :=
  (∀ i, i < ctx.nextId → i ∈ ctx.freed ∨ i ∈ ctx.recs.map Storage.id) ∧
  (∀ s ∈ ctx.recs, s.id < ctx.nextId) ∧
  (ctx.recs.map Storage.id).Nodup ∧
  (∀ s ∈ ctx.recs, s.name.isSome = true)

/-- The context carried by a `LoopStep`, whatever its outcome. -/
def stepCtx : LoopStep → Ctx
  | .finished c _ => c
  | .failed _ c _ => c
  | .more c _ => c

/-! ## Helper lemmas -/

theorem compl32_accept_mask_eq :
    compl32 UNIX_FDS_ACCEPT_MASK = (2 ^ 28 - 1) <<< 4 := by decide

theorem land_compl32_mask_eq_zero_iff (x : Nat) (hx : x < 2 ^ 32) :
    x &&& compl32 UNIX_FDS_ACCEPT_MASK = 0 ↔ x < 16 := by
  constructor
  · intro h
    have hdiv : x >>> 4 = 0 := by
      apply Nat.eq_of_testBit_eq
      intro i
      simp only [Nat.zero_testBit, Nat.testBit_shiftRight]
      by_cases hi : i < 28
      · have hb : (x &&& compl32 UNIX_FDS_ACCEPT_MASK).testBit (4 + i) = false := by
          rw [h]; exact Nat.zero_testBit _
        rw [Nat.testBit_and] at hb
        have hc : (compl32 UNIX_FDS_ACCEPT_MASK).testBit (4 + i) = true := by
          rw [compl32_accept_mask_eq]
          simp only [Nat.testBit_shiftLeft, Nat.testBit_two_pow_sub_one]
          have h4 : 4 + i ≥ 4 := by omega
          simp [h4, Nat.add_sub_cancel_left, hi]
        rw [hc, Bool.and_true] at hb
        exact hb
      · apply Nat.testBit_lt_two_pow
        calc x < 2 ^ 32 := hx
          _ ≤ 2 ^ (4 + i) := Nat.pow_le_pow_right (by norm_num) (by omega)
    have hq : x / 16 = 0 := by
      have h16 := hdiv
      rw [Nat.shiftRight_eq_div_pow] at h16
      simpa using h16
    omega
  · intro h
    apply Nat.eq_of_testBit_eq
    intro i
    simp only [Nat.testBit_and, Nat.zero_testBit]
    by_cases hi : i < 4
    · have hc : (compl32 UNIX_FDS_ACCEPT_MASK).testBit i = false := by
        rw [compl32_accept_mask_eq]
        simp only [Nat.testBit_shiftLeft]
        have : ¬ i ≥ 4 := by omega
        simp [this]
      rw [hc, Bool.and_false]
    · have hxz : x.testBit i = false := by
        apply Nat.testBit_lt_two_pow
        calc x < 16 := h
          _ = 2 ^ 4 := by norm_num
          _ ≤ 2 ^ i := Nat.pow_le_pow_right (by norm_num) (by omega)
      rw [hxz, Bool.false_and]

theorem lor_land_self (a b : Nat) : (a ||| b) &&& b = b := by
  apply Nat.eq_of_testBit_eq
  intro i
  simp only [Nat.testBit_and, Nat.testBit_or]
  cases a.testBit i <;> cases b.testBit i <;> rfl

theorem hweight_received (f R : Nat) (hf : f < 16)
    (hR : R = UNIX_FDS_RECEIVED_EXACT ∨ R = UNIX_FDS_RECEIVED_LESS ∨
          R = UNIX_FDS_RECEIVED_MORE) :
    hweight32 ((f ||| R) &&& compl32 UNIX_FDS_ACCEPT_MASK) = 1 := by
  interval_cases f <;> rcases hR with rfl | rfl | rfl <;> decide

theorem lxc_recv_run_precheck_true (u : unix_fds)
    (h : recv_precheck_ok u = true) (attempts : List RecvAttempt) :
    lxc_abstract_unix_recv_fds_iov u attempts = recv_fds_loop u attempts 0 := by
  simp only [recv_precheck_ok, Bool.and_eq_true, decide_eq_true_eq] at h
  obtain ⟨⟨⟨h1, h2⟩, h3⟩, h4⟩ := h
  simp only [lxc_abstract_unix_recv_fds_iov]
  rw [if_neg (by simp [h1]), if_neg (by omega), if_neg (by omega),
      if_neg (by simp [h4])]

theorem lxc_recv_run_precheck_false (u : unix_fds)
    (h : recv_precheck_ok u = false) (attempts : List RecvAttempt) :
    lxc_abstract_unix_recv_fds_iov u attempts =
      some ⟨-(EINVAL : Int), u, [], 0⟩ := by
  simp only [lxc_abstract_unix_recv_fds_iov]
  split_ifs with h1 h2 h3 h4
  · rfl
  · rfl
  · rfl
  · rfl
  · exfalso
    simp only [ne_eq, not_not, not_lt] at h1 h2 h3 h4
    have : recv_precheck_ok u = true := by
      simp only [recv_precheck_ok, Bool.and_eq_true, decide_eq_true_eq]
      exact ⟨⟨⟨h1, h2⟩, by omega⟩, h4⟩
    rw [this] at h
    cases h

theorem recv_fds_classify_error_eq (u : unix_fds) (raw t : List Int)
    (h : recv_fds_classify u raw = .error t) : t = raw := by
  simp only [recv_fds_classify] at h
  split_ifs at h <;> simp_all

theorem recv_fds_classify_ok_spec (u : unix_fds) (raw : List Int)
    (fds : unix_fds) (num_raw : Nat) (closed : List Int)
    (h : recv_fds_classify u raw = .ok (fds, num_raw, closed)) :
    fds.fd_count_ret = u.fd_count_ret ∧ fds.fd_count_max = u.fd_count_max ∧
    ((raw.length < u.fd_count_max ∧ num_raw = raw.length ∧ closed = [] ∧
      fds.flags = u.flags ||| UNIX_FDS_RECEIVED_LESS) ∨
     (u.fd_count_max < raw.length ∧ num_raw = u.fd_count_max ∧
      closed = raw.drop u.fd_count_max ∧
      fds.flags = u.flags ||| UNIX_FDS_RECEIVED_MORE) ∨
     (u.fd_count_max = raw.length ∧ num_raw = raw.length ∧ closed = [] ∧
      fds.flags = u.flags ||| UNIX_FDS_RECEIVED_EXACT)) := by
  simp only [recv_fds_classify] at h
  split_ifs at h with h1 h2 h3 h4 <;>
    simp only [Except.ok.injEq, Prod.mk.injEq] at h
  · obtain ⟨rfl, rfl, rfl⟩ := h
    exact ⟨rfl, rfl, .inl ⟨by omega, rfl, rfl, rfl⟩⟩
  · obtain ⟨rfl, rfl, rfl⟩ := h
    exact ⟨rfl, rfl, .inr (.inl ⟨by omega, rfl, rfl, rfl⟩)⟩
  · obtain ⟨rfl, rfl, rfl⟩ := h
    exact ⟨rfl, rfl, .inr (.inr ⟨by omega, rfl, rfl, rfl⟩)⟩

theorem recv_fds_msg_closes (u : unix_fds) (bytes : Nat) (ctrunc : Bool)
    (raw : List Int) :
    ((recv_fds_msg u bytes ctrunc (some raw)).1 < 0 →
        ∀ x ∈ raw, x ∈ (recv_fds_msg u bytes ctrunc (some raw)).2.2) ∧
    (0 ≤ (recv_fds_msg u bytes ctrunc (some raw)).1 →
        ∀ i, ∀ hi : i < raw.length, u.fd_count_max ≤ i →
          raw[i] ∈ (recv_fds_msg u bytes ctrunc (some raw)).2.2) := by
  suffices h : ∀ r fds closed,
      recv_fds_msg u bytes ctrunc (some raw) = (r, fds, closed) →
      ((r < 0 → ∀ x ∈ raw, x ∈ closed) ∧
       (0 ≤ r → ∀ i, ∀ hi : i < raw.length, u.fd_count_max ≤ i →
          raw[i] ∈ closed)) by
    rcases hm : recv_fds_msg u bytes ctrunc (some raw) with ⟨r, fds, closed⟩
    simpa using h r fds closed hm
  intro r fds closed hm
  simp only [recv_fds_msg] at hm
  split_ifs at hm with hceil hct
  · simp only [Prod.mk.injEq] at hm
    obtain ⟨rfl, rfl, rfl⟩ := hm
    refine ⟨fun _ x hx => hx, fun h0 => absurd h0 (by decide)⟩
  · simp only [Prod.mk.injEq] at hm
    obtain ⟨rfl, rfl, rfl⟩ := hm
    refine ⟨fun _ x hx => hx, fun h0 => absurd h0 (by decide)⟩
  · rcases hcl : recv_fds_classify u raw with toClose | ⟨fds1, num_raw, closed1⟩ <;>
      rw [hcl] at hm <;> dsimp only at hm
    · obtain rfl := recv_fds_classify_error_eq u raw toClose hcl
      simp only [Prod.mk.injEq] at hm
      obtain ⟨rfl, rfl, rfl⟩ := hm
      refine ⟨fun _ x hx => hx, fun h0 => absurd h0 (by decide)⟩
    · obtain ⟨hret, hmax, hcases⟩ :=
        recv_fds_classify_ok_spec u raw fds1 num_raw closed1 hcl
      simp only [recv_fds_commit] at hm
      split_ifs at hm with hw
      · -- defensive multi-flag check fired: everything decoded is closed
        simp only [Prod.mk.injEq] at hm
        obtain ⟨rfl, rfl, rfl⟩ := hm
        refine ⟨fun _ x hx => ?_, fun h0 => absurd h0 (by decide)⟩
        rcases hcases with ⟨_, rfl, rfl, _⟩ | ⟨_, rfl, rfl, _⟩ | ⟨_, rfl, rfl, _⟩
        · simpa [List.take_length] using hx
        · have hx' : x ∈ raw.take u.fd_count_max ++ raw.drop u.fd_count_max := by
            rw [List.take_append_drop]; exact hx
          rcases List.mem_append.mp hx' with h | h
          · exact List.mem_append.mpr (.inr h)
          · exact List.mem_append.mpr (.inl h)
        · simpa [List.take_length] using hx
      · simp only [recv_fds_finish] at hm
        split_ifs at hm with hz hN
        · -- nothing recorded and an fd-expecting policy: InvalidArgument
          simp only [Prod.mk.injEq] at hm
          obtain ⟨rfl, rfl, rfl⟩ := hm
          refine ⟨fun _ x hx => ?_, fun h0 => absurd h0 (by decide)⟩
          rcases hcases with ⟨_, rfl, rfl, _⟩ | ⟨_, rfl, rfl, _⟩ | ⟨_, rfl, rfl, _⟩ <;>
            have hz' : _ = 0 := hz
          · rw [List.eq_nil_of_length_eq_zero hz'] at hx; cases hx
          · rw [hz', List.drop_zero]; exact hx
          · rw [List.eq_nil_of_length_eq_zero hz'] at hx; cases hx
        · -- nothing recorded but an empty batch is tolerated: success
          simp only [Prod.mk.injEq] at hm
          obtain ⟨rfl, rfl, rfl⟩ := hm
          refine ⟨fun h0 => absurd h0 (by omega), fun _ i hi hge => ?_⟩
          rcases hcases with ⟨hlt, rfl, rfl, _⟩ | ⟨hlt, rfl, rfl, _⟩ | ⟨heq, rfl, rfl, _⟩ <;>
            have hz' : _ = 0 := hz
          · omega
          · rw [hz', List.drop_zero]; exact List.getElem_mem hi
          · omega
        · -- descriptors recorded: success
          simp only [Prod.mk.injEq] at hm
          obtain ⟨rfl, rfl, rfl⟩ := hm
          refine ⟨fun h0 => absurd h0 (by omega), fun _ i hi hge => ?_⟩
          rcases hcases with ⟨hlt, rfl, rfl, _⟩ | ⟨hlt, rfl, rfl, _⟩ | ⟨heq, rfl, rfl, _⟩
          · omega
          · obtain ⟨j, rfl⟩ : ∃ j, i = u.fd_count_max + j :=
              ⟨i - u.fd_count_max, by omega⟩
            rw [List.getElem_drop' raw hi]
            exact List.getElem_mem _
          · omega

/-! ## Claim theorems -/

/-- C10: the fd receive operation requires the caller-supplied batch
structure's received-count field to be zero on entry; a nonzero value
fails with InvalidArgument before any `recvmsg` system call, with the
batch unmodified and nothing closed, so a `unix_fds` cannot be reused
without being reset. -/
theorem C10_recv_requires_zero_count (u : unix_fds)
    (attempts : List RecvAttempt) (h : u.fd_count_ret ≠ 0) :
    lxc_abstract_unix_recv_fds_iov u attempts =
      some ⟨-(EINVAL : Int), u, [], 0⟩ := by
  apply lxc_recv_run_precheck_false
  simp [recv_precheck_ok, h]

theorem C10_recv_requires_zero_count_witness :
    (5 : Nat) ≠ 0 ∧
    lxc_abstract_unix_recv_fds_iov ⟨1, 5, 0, fun _ => 0⟩
        [RecvAttempt.ok 1 false (some [3])] =
      some ⟨-(EINVAL : Int), ⟨1, 5, 0, fun _ => 0⟩, [], 0⟩ :=
  ⟨by decide, C10_recv_requires_zero_count ⟨1, 5, 0, fun _ => 0⟩
      [RecvAttempt.ok 1 false (some [3])] (by decide)⟩

/-- C6 counterexample: the flag word `ACCEPT_LESS ||| ACCEPT_NONE` names
two of the four accept policies, yet the precondition check accepts it
and the call proceeds to `recvmsg` (blocking, hence no result on an
empty outcome oracle) — refuting "accepts if and only if the accept
policy names exactly one of {EXACT, LESS, MORE, NONE}". -/
theorem C6_counterexample :
    recv_precheck_ok
        ⟨1, 0, UNIX_FDS_ACCEPT_LESS ||| UNIX_FDS_ACCEPT_NONE, fun _ => 0⟩ = true ∧
    (lxc_abstract_unix_recv_fds_iov
        ⟨1, 0, UNIX_FDS_ACCEPT_LESS ||| UNIX_FDS_ACCEPT_NONE, fun _ => 0⟩
        []).isNone = true ∧
    acceptPolicyNameCount (UNIX_FDS_ACCEPT_LESS ||| UNIX_FDS_ACCEPT_NONE) ≠ 1 := by
  refine ⟨by decide, by decide, by decide⟩

/-- C6 (amended): the precondition check accepts exactly the flag words
made of accept-policy bits with at most one of {EXACT, LESS, MORE} set
(NONE combines freely and the empty word selects the EXACT default),
together with a requested maximum below the kernel ceiling and a zero
received-count field; every violation returns InvalidArgument with no
receive system call performed and no state modified, and acceptance
hands control to the receive loop. -/
theorem C6_recv_precheck_amended (u : unix_fds) (h32 : u.flags < 2 ^ 32) :
    (recv_precheck_ok u = true ↔
      (u.flags ∈ ([0, 1, 2, 4, 8, 9, 10, 12] : List Nat) ∧
       u.fd_count_max < KERNEL_SCM_MAX_FD ∧ u.fd_count_ret = 0)) ∧
    (∀ attempts, recv_precheck_ok u = false →
      lxc_abstract_unix_recv_fds_iov u attempts =
        some ⟨-(EINVAL : Int), u, [], 0⟩) ∧
    (∀ attempts, recv_precheck_ok u = true →
      lxc_abstract_unix_recv_fds_iov u attempts = recv_fds_loop u attempts 0) := by
  refine ⟨?_, fun attempts h => lxc_recv_run_precheck_false u h attempts,
          fun attempts h => lxc_recv_run_precheck_true u h attempts⟩
  obtain ⟨cmax, cret, fl, fdf⟩ := u
  simp only [recv_precheck_ok, Bool.and_eq_true, decide_eq_true_eq] at h32 ⊢
  constructor
  · rintro ⟨⟨⟨h1, h2⟩, h3⟩, h4⟩
    refine ⟨?_, h3, h4⟩
    have hf : fl < 16 := (land_compl32_mask_eq_zero_iff fl h32).mp h1
    interval_cases fl <;> revert h2 <;> decide
  · rintro ⟨hmem, h3, h4⟩
    refine ⟨⟨⟨?_, ?_⟩, h3⟩, h4⟩ <;>
      (simp only [List.mem_cons, List.mem_singleton, List.not_mem_nil, or_false] at hmem;
       rcases hmem with rfl | rfl | rfl | rfl | rfl | rfl | rfl | rfl <;> decide)

theorem C6_recv_precheck_amended_witness :
    (10 : Nat) < 2 ^ 32 ∧
    (recv_precheck_ok ⟨1, 0, 10, fun _ => 0⟩ = true ↔
      ((10 : Nat) ∈ ([0, 1, 2, 4, 8, 9, 10, 12] : List Nat) ∧
       (1 : Nat) < KERNEL_SCM_MAX_FD ∧ (0 : Nat) = 0)) :=
  ⟨by decide, (C6_recv_precheck_amended ⟨1, 0, 10, fun _ => 0⟩ (by decide)).1⟩

/-- C1: whenever the kernel delivered a rights block, the call never
leaves a descriptor outside the returned batch open — on any error
return every decoded descriptor has been closed, and on success every
decoded descriptor at index at or above the requested maximum has been
closed. -/
theorem C1_recv_no_dangling_descriptors (u : unix_fds) (bytes : Nat)
    (ctrunc : Bool) (raw : List Int) (res : RecvFdsResult) (hb : bytes ≠ 0)
    (hrun : lxc_abstract_unix_recv_fds_iov u
        [RecvAttempt.ok bytes ctrunc (some raw)] = some res)
    (hcall : res.recvCalls ≠ 0) :
    (res.retval < 0 → ∀ x ∈ raw, x ∈ res.closed) ∧
    (0 ≤ res.retval → ∀ i, ∀ hi : i < raw.length, u.fd_count_max ≤ i →
      raw[i] ∈ res.closed) := by
  by_cases hpre : recv_precheck_ok u = true
  · rw [lxc_recv_run_precheck_true u hpre] at hrun
    simp only [recv_fds_loop, if_neg hb] at hrun
    rcases hm : recv_fds_msg u bytes ctrunc (some raw) with ⟨r, fds, closed⟩
    rw [hm] at hrun
    dsimp only at hrun
    rw [Option.some.injEq] at hrun
    subst hrun
    have h := recv_fds_msg_closes u bytes ctrunc raw
    rw [hm] at h
    exact h
  · have hf : recv_precheck_ok u = false := by simpa using hpre
    rw [lxc_recv_run_precheck_false u hf] at hrun
    rw [Option.some.injEq] at hrun
    subst hrun
    exact absurd rfl hcall

theorem C1_recv_no_dangling_descriptors_witness :
    (7 : Int) ∈ ([7, 8] : List Int) :=
  (C1_recv_no_dangling_descriptors ⟨1, 0, 0, fun _ => 0⟩ 1 false [7, 8]
      ⟨-(EINVAL : Int), ⟨1, 0, 0, fun _ => 0⟩, [7, 8], 0 + 1⟩
      (by decide) rfl (by decide)).1 (by decide) 7 (by decide)

theorem received_more_none_land (f : Nat) (hf : f < 16) :
    ((f ||| UNIX_FDS_RECEIVED_MORE) ||| UNIX_FDS_RECEIVED_NONE) &&&
        UNIX_FDS_ACCEPT_MASK = f ∧
    ((f ||| UNIX_FDS_RECEIVED_MORE) ||| UNIX_FDS_RECEIVED_NONE) &&&
        UNIX_FDS_ACCEPT_NONE = f &&& UNIX_FDS_ACCEPT_NONE := by
  interval_cases f <;> decide

theorem recv_fds_msg_exact (u : unix_fds) (bytes : Nat) (raw : List Int)
    (hf16 : u.flags < 16) (hceil : raw.length < KERNEL_SCM_MAX_FD)
    (hpos : raw ≠ []) (heq : raw.length = u.fd_count_max) :
    recv_fds_msg u bytes false (some raw) =
      ((bytes : Int),
       { u with flags := u.flags ||| UNIX_FDS_RECEIVED_EXACT,
                fd := fun idx =>
                  if idx < raw.length then raw.getD idx (u.fd idx) else u.fd idx,
                fd_count_ret := raw.length },
       []) := by
  have hcl : recv_fds_classify u raw =
      .ok ({ u with flags := u.flags ||| UNIX_FDS_RECEIVED_EXACT },
           raw.length, []) := by
    simp only [recv_fds_classify]
    rw [if_neg (by omega), if_neg (by omega)]
  have hcm : recv_fds_commit
      { u with flags := u.flags ||| UNIX_FDS_RECEIVED_EXACT } raw raw.length =
      .ok { u with flags := u.flags ||| UNIX_FDS_RECEIVED_EXACT,
                   fd := fun idx =>
                     if idx < raw.length then raw.getD idx (u.fd idx)
                     else u.fd idx,
                   fd_count_ret := raw.length } := by
    simp only [recv_fds_commit]
    rw [if_neg (by
      rw [hweight_received u.flags UNIX_FDS_RECEIVED_EXACT hf16 (Or.inl rfl)]
      omega)]
  simp only [recv_fds_msg]
  rw [if_neg (by omega), if_neg (by simp), hcl]
  dsimp only
  rw [hcm]
  dsimp only
  simp only [recv_fds_finish]
  rw [if_neg (show ¬raw.length = 0 from
        fun hz => hpos (List.eq_nil_of_length_eq_zero hz))]

theorem recv_fds_msg_less_denied (u : unix_fds) (bytes : Nat) (raw : List Int)
    (hceil : raw.length < KERNEL_SCM_MAX_FD)
    (hlt : raw.length < u.fd_count_max)
    (hless : u.flags &&& UNIX_FDS_ACCEPT_LESS = 0) :
    recv_fds_msg u bytes false (some raw) = (-(EINVAL : Int), u, raw) := by
  have hcl : recv_fds_classify u raw = .error raw := by
    simp only [recv_fds_classify]
    rw [if_pos (by omega), if_pos hless]
  simp only [recv_fds_msg]
  rw [if_neg (by omega), if_neg (by simp), hcl]

theorem recv_fds_msg_less (u : unix_fds) (bytes : Nat) (raw : List Int)
    (hf16 : u.flags < 16) (hceil : raw.length < KERNEL_SCM_MAX_FD)
    (hpos : raw ≠ []) (hlt : raw.length < u.fd_count_max)
    (hless : u.flags &&& UNIX_FDS_ACCEPT_LESS ≠ 0) :
    recv_fds_msg u bytes false (some raw) =
      ((bytes : Int),
       { u with flags := u.flags ||| UNIX_FDS_RECEIVED_LESS,
                fd := fun idx =>
                  if idx < raw.length then
                    raw.getD idx (if raw.length ≤ idx ∧ idx < u.fd_count_max
                      then -(EBADF : Int) else u.fd idx)
                  else if raw.length ≤ idx ∧ idx < u.fd_count_max
                    then -(EBADF : Int) else u.fd idx,
                fd_count_ret := raw.length },
       []) := by
  have hcl : recv_fds_classify u raw =
      .ok ({ u with
              fd := fun idx =>
                if raw.length ≤ idx ∧ idx < u.fd_count_max then -(EBADF : Int)
                else u.fd idx,
              flags := u.flags ||| UNIX_FDS_RECEIVED_LESS },
           raw.length, []) := by
    simp only [recv_fds_classify]
    rw [if_pos (by omega), if_neg hless]
  simp only [recv_fds_msg]
  rw [if_neg (by omega), if_neg (by simp), hcl]
  dsimp only
  simp only [recv_fds_commit]
  rw [if_neg (by
    rw [hweight_received u.flags UNIX_FDS_RECEIVED_LESS hf16 (Or.inr (Or.inl rfl))]
    omega)]
  dsimp only
  simp only [recv_fds_finish]
  rw [if_neg (show ¬raw.length = 0 from
        fun hz => hpos (List.eq_nil_of_length_eq_zero hz))]

theorem recv_fds_msg_more_denied (u : unix_fds) (bytes : Nat) (raw : List Int)
    (hceil : raw.length < KERNEL_SCM_MAX_FD)
    (hgt : u.fd_count_max < raw.length)
    (hmore : u.flags &&& UNIX_FDS_ACCEPT_MORE = 0) :
    recv_fds_msg u bytes false (some raw) = (-(EINVAL : Int), u, raw) := by
  have hcl : recv_fds_classify u raw = .error raw := by
    simp only [recv_fds_classify]
    rw [if_neg (by omega), if_pos (by omega), if_pos hmore]
  simp only [recv_fds_msg]
  rw [if_neg (by omega), if_neg (by simp), hcl]

theorem recv_fds_msg_more (u : unix_fds) (bytes : Nat) (raw : List Int)
    (hf16 : u.flags < 16) (hceil : raw.length < KERNEL_SCM_MAX_FD)
    (hgt : u.fd_count_max < raw.length)
    (hmore : u.flags &&& UNIX_FDS_ACCEPT_MORE ≠ 0)
    (hm0 : u.fd_count_max ≠ 0) :
    recv_fds_msg u bytes false (some raw) =
      ((bytes : Int),
       { u with flags := u.flags ||| UNIX_FDS_RECEIVED_MORE,
                fd := fun idx =>
                  if idx < u.fd_count_max then raw.getD idx (u.fd idx)
                  else u.fd idx,
                fd_count_ret := u.fd_count_max },
       raw.drop u.fd_count_max) := by
  have hcl : recv_fds_classify u raw =
      .ok ({ u with flags := u.flags ||| UNIX_FDS_RECEIVED_MORE },
           u.fd_count_max, raw.drop u.fd_count_max) := by
    simp only [recv_fds_classify]
    rw [if_neg (by omega), if_pos (by omega), if_neg hmore]
  simp only [recv_fds_msg]
  rw [if_neg (by omega), if_neg (by simp), hcl]
  dsimp only
  simp only [recv_fds_commit]
  rw [if_neg (by
    rw [hweight_received u.flags UNIX_FDS_RECEIVED_MORE hf16 (Or.inr (Or.inr rfl))]
    omega)]
  dsimp only
  simp only [recv_fds_finish]
  rw [if_neg hm0]

theorem recv_fds_msg_more_zero (u : unix_fds) (bytes : Nat) (raw : List Int)
    (hf16 : u.flags < 16) (hceil : raw.length < KERNEL_SCM_MAX_FD)
    (hpos : raw ≠ []) (hmore : u.flags &&& UNIX_FDS_ACCEPT_MORE ≠ 0)
    (hm0 : u.fd_count_max = 0) :
    recv_fds_msg u bytes false (some raw) =
      ((if u.flags &&& UNIX_FDS_ACCEPT_NONE = 0 then -(EINVAL : Int)
        else (bytes : Int)),
       { u with flags := (u.flags ||| UNIX_FDS_RECEIVED_MORE) |||
                           UNIX_FDS_RECEIVED_NONE,
                fd := fun idx =>
                  if idx < u.fd_count_max then raw.getD idx (u.fd idx)
                  else u.fd idx,
                fd_count_ret := u.fd_count_max },
       raw.drop u.fd_count_max) := by
  have hlen : 0 < raw.length := List.length_pos.mpr hpos
  have hfne : u.flags ≠ 0 := fun h0 => hmore (by rw [h0]; decide)
  have hcl : recv_fds_classify u raw =
      .ok ({ u with flags := u.flags ||| UNIX_FDS_RECEIVED_MORE },
           u.fd_count_max, raw.drop u.fd_count_max) := by
    simp only [recv_fds_classify]
    rw [if_neg (by omega), if_pos (by omega), if_neg hmore]
  simp only [recv_fds_msg]
  rw [if_neg (by omega), if_neg (by simp), hcl]
  dsimp only
  simp only [recv_fds_commit]
  rw [if_neg (by
    rw [hweight_received u.flags UNIX_FDS_RECEIVED_MORE hf16 (Or.inr (Or.inr rfl))]
    omega)]
  dsimp only
  simp only [recv_fds_finish]
  rw [if_pos hm0]
  by_cases hn : u.flags &&& UNIX_FDS_ACCEPT_NONE = 0
  · rw [if_pos (⟨by rw [(received_more_none_land u.flags hf16).1]; exact hfne,
                 by rw [(received_more_none_land u.flags hf16).2]; exact hn⟩ :
          ((u.flags ||| UNIX_FDS_RECEIVED_MORE) ||| UNIX_FDS_RECEIVED_NONE) &&&
              UNIX_FDS_ACCEPT_MASK ≠ 0 ∧
          ((u.flags ||| UNIX_FDS_RECEIVED_MORE) ||| UNIX_FDS_RECEIVED_NONE) &&&
              UNIX_FDS_ACCEPT_NONE = 0)]
    rw [if_pos hn]
  · rw [if_neg (fun hcon => hn (by
        have := hcon.2
        rwa [(received_more_none_land u.flags hf16).2] at this))]
    rw [if_neg hn]

/-- C2 counterexample: with requested maximum `m = 0`, accept policy
MORE only, and a delivered rights block of one descriptor (`r = 1 > m`),
the call closes everything but then fails with InvalidArgument instead
of succeeding with flag MORE as the claim states for every `r > m` under
policy MORE. -/
theorem C2_counterexample :
    (lxc_abstract_unix_recv_fds_iov ⟨0, 0, UNIX_FDS_ACCEPT_MORE, fun _ => 0⟩
        [RecvAttempt.ok 1 false (some [10])]).map RecvFdsResult.retval =
      some (-(EINVAL : Int)) ∧
    ¬ (0 : Int) < -(EINVAL : Int) := by
  exact ⟨by decide, by decide⟩

/-- C2 (amended): for a delivered rights block of `r > 0` descriptors
below the kernel ceiling without truncation, the call classifies `r`
against the requested maximum `m` exactly as the claim states — except
that under policy MORE with `m = 0` the capped batch is empty, the call
additionally flags NONE, and it fails with InvalidArgument unless policy
NONE is also set. -/
theorem C2_recv_cardinality_amended (u : unix_fds) (bytes : Nat)
    (raw : List Int) (res : RecvFdsResult)
    (hpre : recv_precheck_ok u = true) (h32 : u.flags < 2 ^ 32)
    (hb : bytes ≠ 0) (hceil : raw.length < KERNEL_SCM_MAX_FD)
    (hpos : raw ≠ [])
    (hrun : lxc_abstract_unix_recv_fds_iov u
        [RecvAttempt.ok bytes false (some raw)] = some res) :
    (raw.length = u.fd_count_max →
      res.retval = (bytes : Int) ∧
      res.fds.flags &&& UNIX_FDS_RECEIVED_EXACT ≠ 0 ∧
      res.fds.fd_count_ret = raw.length ∧
      (∀ i, ∀ hi : i < raw.length, res.fds.fd i = raw[i]) ∧
      res.closed = []) ∧
    (raw.length < u.fd_count_max → u.flags &&& UNIX_FDS_ACCEPT_LESS = 0 →
      res.retval = -(EINVAL : Int) ∧ res.closed = raw) ∧
    (raw.length < u.fd_count_max → u.flags &&& UNIX_FDS_ACCEPT_LESS ≠ 0 →
      res.retval = (bytes : Int) ∧
      res.fds.flags &&& UNIX_FDS_RECEIVED_LESS ≠ 0 ∧
      res.fds.fd_count_ret = raw.length ∧
      (∀ i, raw.length ≤ i → i < u.fd_count_max →
        res.fds.fd i = -(EBADF : Int)) ∧
      res.closed = []) ∧
    (u.fd_count_max < raw.length → u.flags &&& UNIX_FDS_ACCEPT_MORE = 0 →
      res.retval = -(EINVAL : Int) ∧ res.closed = raw) ∧
    (u.fd_count_max < raw.length → u.flags &&& UNIX_FDS_ACCEPT_MORE ≠ 0 →
      u.fd_count_max ≠ 0 →
      res.retval = (bytes : Int) ∧
      res.fds.flags &&& UNIX_FDS_RECEIVED_MORE ≠ 0 ∧
      res.fds.fd_count_ret = u.fd_count_max ∧
      res.closed = raw.drop u.fd_count_max) ∧
    (u.fd_count_max < raw.length → u.flags &&& UNIX_FDS_ACCEPT_MORE ≠ 0 →
      u.fd_count_max = 0 →
      res.closed = raw ∧
      (u.flags &&& UNIX_FDS_ACCEPT_NONE = 0 → res.retval = -(EINVAL : Int)) ∧
      (u.flags &&& UNIX_FDS_ACCEPT_NONE ≠ 0 → res.retval = (bytes : Int))) := by
  have hf16 : u.flags < 16 := by
    have h' := hpre
    simp only [recv_precheck_ok, Bool.and_eq_true, decide_eq_true_eq] at h'
    exact (land_compl32_mask_eq_zero_iff u.flags h32).mp h'.1.1.1
  rw [lxc_recv_run_precheck_true u hpre] at hrun
  simp only [recv_fds_loop, if_neg hb] at hrun
  refine ⟨?_, ?_, ?_, ?_, ?_, ?_⟩
  · intro heq
    rw [recv_fds_msg_exact u bytes raw hf16 hceil hpos heq] at hrun
    dsimp only at hrun
    rw [Option.some.injEq] at hrun
    subst hrun
    refine ⟨rfl, ?_, rfl, ?_, rfl⟩
    · show (u.flags ||| UNIX_FDS_RECEIVED_EXACT) &&&
          UNIX_FDS_RECEIVED_EXACT ≠ 0
      rw [lor_land_self]
      decide
    · intro i hi
      show (if i < raw.length then raw.getD i (u.fd i) else u.fd i) = raw[i]
      rw [if_pos hi]
      exact List.getD_eq_getElem raw (u.fd i) hi
  · intro hlt hless
    rw [recv_fds_msg_less_denied u bytes raw hceil hlt hless] at hrun
    dsimp only at hrun
    rw [Option.some.injEq] at hrun
    subst hrun
    exact ⟨rfl, rfl⟩
  · intro hlt hless
    rw [recv_fds_msg_less u bytes raw hf16 hceil hpos hlt hless] at hrun
    dsimp only at hrun
    rw [Option.some.injEq] at hrun
    subst hrun
    refine ⟨rfl, ?_, rfl, ?_, rfl⟩
    · show (u.flags ||| UNIX_FDS_RECEIVED_LESS) &&&
          UNIX_FDS_RECEIVED_LESS ≠ 0
      rw [lor_land_self]
      decide
    · intro i hge hltmax
      show (if i < raw.length then
              raw.getD i (if raw.length ≤ i ∧ i < u.fd_count_max
                then -(EBADF : Int) else u.fd i)
            else if raw.length ≤ i ∧ i < u.fd_count_max
              then -(EBADF : Int) else u.fd i) = -(EBADF : Int)
      rw [if_neg (by omega), if_pos ⟨hge, hltmax⟩]
  · intro hgt hmore
    rw [recv_fds_msg_more_denied u bytes raw hceil hgt hmore] at hrun
    dsimp only at hrun
    rw [Option.some.injEq] at hrun
    subst hrun
    exact ⟨rfl, rfl⟩
  · intro hgt hmore hm0
    rw [recv_fds_msg_more u bytes raw hf16 hceil hgt hmore hm0] at hrun
    dsimp only at hrun
    rw [Option.some.injEq] at hrun
    subst hrun
    refine ⟨rfl, ?_, rfl, rfl⟩
    show (u.flags ||| UNIX_FDS_RECEIVED_MORE) &&& UNIX_FDS_RECEIVED_MORE ≠ 0
    rw [lor_land_self]
    decide
  · intro hgt hmore hm0
    rw [recv_fds_msg_more_zero u bytes raw hf16 hceil hpos hmore hm0] at hrun
    dsimp only at hrun
    rw [Option.some.injEq] at hrun
    subst hrun
    refine ⟨?_, ?_, ?_⟩
    · show raw.drop u.fd_count_max = raw
      rw [hm0, List.drop_zero]
    · intro hn
      show (if u.flags &&& UNIX_FDS_ACCEPT_NONE = 0 then -(EINVAL : Int)
            else (bytes : Int)) = -(EINVAL : Int)
      rw [if_pos hn]
    · intro hn
      show (if u.flags &&& UNIX_FDS_ACCEPT_NONE = 0 then -(EINVAL : Int)
            else (bytes : Int)) = (bytes : Int)
      rw [if_neg hn]

theorem C2_recv_cardinality_amended_witness :
    ([7] : List Int).length < 3 ∧
    (⟨-(EINVAL : Int), ⟨3, 0, 0, fun _ => 0⟩, [7], 0 + 1⟩ :
        RecvFdsResult).retval = -(EINVAL : Int) ∧
    (⟨-(EINVAL : Int), ⟨3, 0, 0, fun _ => 0⟩, [7], 0 + 1⟩ :
        RecvFdsResult).closed = [7] :=
  ⟨by decide,
   (C2_recv_cardinality_amended ⟨3, 0, 0, fun _ => 0⟩ 1 [7]
       ⟨-(EINVAL : Int), ⟨3, 0, 0, fun _ => 0⟩, [7], 0 + 1⟩
       (by decide) (by decide) (by decide) (by decide) (by decide)
       rfl).2.1 (by decide) (by decide)⟩

/-! ## Netmask derivation (C3) -/

theorem clamp_min (q : Nat) : (if q > 128 then 128 else q) = min q 128 := by
  split <;> omega

theorem gen_netmask_buf_length (p : Nat) : (gen_netmask_buf p).length = 16 := by
  simp [gen_netmask_buf]

theorem gen_netmask_buf_getD (p j : Nat) (hp : p ≤ 128) (hj : j < 16) :
    (gen_netmask_buf p).getD j 0 =
      if j < p / 8 then 0xff
      else if j = p / 8 then (0xff <<< (8 - p % 8)) % 256
      else 0 := by
  have hlen : j < (gen_netmask_buf p).length := by
    rw [gen_netmask_buf_length]; exact hj
  rw [List.getD_eq_getElem _ _ hlen]
  simp only [gen_netmask_buf, clamp_min, Nat.min_eq_left hp]
  simp [List.getElem_map, List.getElem_range]

theorem byte_bit_full : ∀ s : Fin 8,
    ((255 >>> (7 - s.val)) &&& 1 == 1) = true := by decide

theorem byte_bit_partial : ∀ r s : Fin 8,
    ((((0xff <<< (8 - r.val)) % 256) >>> (7 - s.val)) &&& 1 == 1) =
      decide (s.val < r.val) := by decide

theorem byte_bit_zero : ∀ s : Fin 8,
    ((0 >>> (7 - s.val)) &&& 1 == 1) = false := by decide

theorem gen_netmask_buf_bit (p k : Nat) (hp : p ≤ 128) (hk : k < 128) :
    maskBit (gen_netmask_buf p) k = decide (k < p) := by
  have hj : k / 8 < 16 := by omega
  simp only [maskBit]
  rw [gen_netmask_buf_getD p (k / 8) hp hj]
  rcases Nat.lt_trichotomy (k / 8) (p / 8) with h | h | h
  · rw [if_pos h]
    have hb := byte_bit_full ⟨k % 8, by omega⟩
    simp only at hb
    rw [hb]
    have : k < p := by omega
    simp [this]
  · rw [if_neg (by omega), if_pos h]
    have hb := byte_bit_partial ⟨p % 8, by omega⟩ ⟨k % 8, by omega⟩
    simp only at hb
    rw [hb, decide_eq_decide]
    omega
  · rw [if_neg (by omega), if_neg (by omega)]
    have hb := byte_bit_zero ⟨k % 8, by omega⟩
    simp only at hb
    rw [hb]
    have : ¬ k < p := by omega
    simp [this]

theorem maskBit_take (bytes : List Nat) (n k : Nat) (hk : k / 8 < n)
    (hlen : n ≤ bytes.length) :
    maskBit (bytes.take n) k = maskBit bytes k := by
  have h1 : k / 8 < (bytes.take n).length := by
    rw [List.length_take]; omega
  have h2 : k / 8 < bytes.length := by omega
  have hg : (bytes.take n).getD (k / 8) 0 = bytes.getD (k / 8) 0 := by
    rw [List.getD_eq_getElem _ _ h1, List.getD_eq_getElem _ _ h2,
        List.getElem_take]
  simp only [maskBit, hg]

theorem netmaskBytes_inet (p : Nat) :
    netmaskBytes AF_INET p = (gen_netmask_buf p).take 4 := rfl

theorem netmaskBytes_inet6 (p : Nat) :
    netmaskBytes AF_INET6 p = (gen_netmask_buf p).take 16 := rfl

theorem gen_netmask_buf_clamp (p : Nat) :
    gen_netmask_buf p = gen_netmask_buf (min p 128) := by
  simp only [gen_netmask_buf, clamp_min]
  rw [Nat.min_assoc, Nat.min_self]

/-- C3: for both handled families the derived netmask is always set and
its bit `k` (network order) is one exactly when `k < min p width`: the
mask has exactly `min(p, address width)` leading one-bits followed by
zero bits, and any `p` beyond the width yields the all-ones mask. -/
theorem C3_netmask_prefix_bits (p : Nat) :
    ((gen_netmask AF_INET p).isSome = true ∧
     (netmaskBytes AF_INET p).length = 4 ∧
     ∀ k, k < 32 → maskBit (netmaskBytes AF_INET p) k = decide (k < min p 32)) ∧
    ((gen_netmask AF_INET6 p).isSome = true ∧
     (netmaskBytes AF_INET6 p).length = 16 ∧
     ∀ k, k < 128 →
       maskBit (netmaskBytes AF_INET6 p) k = decide (k < min p 128)) := by
  refine ⟨⟨rfl, ?_, ?_⟩, rfl, ?_, ?_⟩
  · rw [netmaskBytes_inet, List.length_take, gen_netmask_buf_length]
    decide
  · intro k hk
    rw [netmaskBytes_inet, gen_netmask_buf_clamp,
        maskBit_take _ 4 k (by omega) (by rw [gen_netmask_buf_length]; omega),
        gen_netmask_buf_bit (min p 128) k (by omega) (by omega),
        decide_eq_decide]
    omega
  · rw [netmaskBytes_inet6, List.length_take, gen_netmask_buf_length]
    decide
  · intro k hk
    rw [netmaskBytes_inet6, gen_netmask_buf_clamp,
        maskBit_take _ 16 k (by omega) (by rw [gen_netmask_buf_length]),
        gen_netmask_buf_bit (min p 128) k (by omega) (by omega),
        decide_eq_decide]

theorem C3_netmask_prefix_bits_witness :
    (5 : Nat) < 32 ∧
    maskBit (netmaskBytes AF_INET 3) 5 = decide ((5 : Nat) < min 3 32) :=
  ⟨by decide, (C3_netmask_prefix_bits 3).1.2.2 5 (by decide)⟩

/-! ## Enumerator invariants -/

theorem ctx0_inv (allocs : List Bool) : CtxInv (ctx0 allocs) := by
  refine ⟨?_, ?_, ?_, ?_⟩ <;> simp [ctx0, CtxInv]

theorem processLinkAttr_id (ifi : LinkInfo) (st : Storage × Bool)
    (a : LinkAttr) : ((processLinkAttr ifi st a).1).id = (st.1).id := by
  rcases st with ⟨ifs, aware⟩
  cases a <;> dsimp only [processLinkAttr] <;> (repeat' split) <;> rfl

theorem processAddrAttr_id (ifa : AddrInfo) (st : Storage × Bool)
    (a : AddrAttr) : ((processAddrAttr ifa st a).1).id = (st.1).id := by
  rcases st with ⟨ifs, aware⟩
  cases a <;> dsimp only [processAddrAttr] <;> (repeat' split) <;> rfl

theorem foldl_link_id (ifi : LinkInfo) (attrs : List LinkAttr)
    (st : Storage × Bool) :
    ((attrs.foldl (processLinkAttr ifi) st).1).id = (st.1).id := by
  induction attrs generalizing st with
  | nil => rfl
  | cons a rest ih => rw [List.foldl_cons, ih, processLinkAttr_id]

theorem foldl_addr_id (ifa : AddrInfo) (attrs : List AddrAttr)
    (st : Storage × Bool) :
    ((attrs.foldl (processAddrAttr ifa) st).1).id = (st.1).id := by
  induction attrs generalizing st with
  | nil => rfl
  | cons a rest ih => rw [List.foldl_cons, ih, processAddrAttr_id]

theorem allocPop_ctx (ctx : Ctx) :
    ((allocPop ctx).2).nextId = ctx.nextId ∧
    ((allocPop ctx).2).recs = ctx.recs ∧
    ((allocPop ctx).2).freed = ctx.freed := by
  cases hc : ctx.allocs <;> simp [allocPop, hc]

theorem CtxInv_commit (ctxb : Ctx) (ifs : Storage)
    (hid : ifs.id + 1 = ctxb.nextId)
    (hledger : ∀ i, i < ctxb.nextId - 1 →
        i ∈ ctxb.freed ∨ i ∈ ctxb.recs.map Storage.id)
    (hbound : ∀ s ∈ ctxb.recs, s.id < ctxb.nextId - 1)
    (hnd : (ctxb.recs.map Storage.id).Nodup)
    (hnm : ∀ s ∈ ctxb.recs, s.name.isSome = true) :
    CtxInv (commitRecord ctxb ifs) := by
  unfold commitRecord CtxInv
  by_cases hname : ifs.name.isSome = true
  · rw [if_pos hname]
    refine ⟨?_, ?_, ?_, ?_⟩
    · intro i hi
      dsimp only at hi ⊢
      rcases Nat.lt_or_ge i (ctxb.nextId - 1) with h | h
      · rcases hledger i h with h' | h'
        · exact .inl h'
        · right
          rw [List.map_append]
          exact List.mem_append.mpr (.inl h')
      · have heq : i = ifs.id := by omega
        right
        rw [List.map_append]
        exact List.mem_append.mpr (.inr (by simp [heq]))
    · intro s hs
      dsimp only at hs ⊢
      rcases List.mem_append.mp hs with h | h
      · have := hbound s h; omega
      · rw [List.mem_singleton] at h
        subst h
        omega
    · dsimp only
      rw [List.map_append]
      refine List.Nodup.append hnd (by simp) ?_
      intro a ha hb
      rw [List.map_singleton, List.mem_singleton] at hb
      subst hb
      obtain ⟨s, hs, hsa⟩ := List.mem_map.mp ha
      have := hbound s hs
      omega
    · intro s hs
      dsimp only at hs
      rcases List.mem_append.mp hs with h | h
      · exact hnm s h
      · rw [List.mem_singleton] at h
        subst h
        exact hname
  · rw [if_neg hname]
    refine ⟨?_, ?_, hnd, hnm⟩
    · intro i hi
      dsimp only at hi ⊢
      rcases Nat.lt_or_ge i (ctxb.nextId - 1) with h | h
      · rcases hledger i h with h' | h'
        · exact .inl (List.mem_append.mpr (.inl h'))
        · exact .inr h'
      · have heq : i = ifs.id := by omega
        exact .inl (List.mem_append.mpr (.inr (by simp [heq])))
    · intro s hs
      dsimp only at hs ⊢
      have := hbound s hs
      omega

theorem nl_msg_inv (ctx : Ctx) (aware : Bool) (msg : NlMsg) (ctx' : Ctx)
    (aware' : Bool) (h : nl_msg_to_ifaddr ctx aware msg = .ok (ctx', aware'))
    (hinv : CtxInv ctx) : CtxInv ctx' := by
  obtain ⟨hled, hbnd, hnd, hnm⟩ := hinv
  obtain ⟨hap1, hap2, hap3⟩ := allocPop_ctx ctx
  cases msg with
  | done =>
      simp only [nl_msg_to_ifaddr, Except.ok.injEq, Prod.mk.injEq] at h
      obtain ⟨rfl, rfl⟩ := h
      exact ⟨hled, hbnd, hnd, hnm⟩
  | errorFrame e =>
      simp only [nl_msg_to_ifaddr, Except.ok.injEq, Prod.mk.injEq] at h
      obtain ⟨rfl, rfl⟩ := h
      exact ⟨hled, hbnd, hnd, hnm⟩
  | newlink ifi attrs =>
      simp only [nl_msg_to_ifaddr] at h
      rcases hap : allocPop ctx with ⟨ok, ctx1⟩
      rw [hap] at h hap1 hap2 hap3
      dsimp only at h hap1 hap2 hap3
      cases ok with
      | false => simp at h
      | true =>
          rw [if_neg (by simp)] at h
          rcases hfold : attrs.foldl (processLinkAttr ifi)
              (freshLinkStorage ctx1.nextId ifi, aware) with ⟨ifs, aware2⟩
          rw [hfold] at h
          dsimp only at h
          simp only [Except.ok.injEq, Prod.mk.injEq] at h
          obtain ⟨rfl, rfl⟩ := h
          have hid : ifs.id = ctx1.nextId := by
            have hcopy := foldl_link_id ifi attrs
              (freshLinkStorage ctx1.nextId ifi, aware)
            rw [hfold] at hcopy
            exact hcopy
          split
          · exact CtxInv_commit _ ifs (by dsimp only; omega)
              (by dsimp only; rw [hap2, hap3]; intro i hi;
                  exact hled i (by omega))
              (by dsimp only; rw [hap2]; intro s hs;
                  have := hbnd s hs; omega)
              (by dsimp only; rw [hap2]; exact hnd)
              (by dsimp only; rw [hap2]; exact hnm)
          · exact CtxInv_commit _ ifs (by dsimp only; omega)
              (by dsimp only; rw [hap2, hap3]; intro i hi;
                  exact hled i (by omega))
              (by dsimp only; rw [hap2]; intro s hs;
                  have := hbnd s hs; omega)
              (by dsimp only; rw [hap2]; exact hnd)
              (by dsimp only; rw [hap2]; exact hnm)
  | newaddr ifa attrs =>
      simp only [nl_msg_to_ifaddr] at h
      rcases hlk : hashLookup ctx.hash ifa.ifa_index with - | ifs0 <;>
        rw [hlk] at h <;> dsimp only at h
      · simp only [Except.ok.injEq, Prod.mk.injEq] at h
        obtain ⟨rfl, rfl⟩ := h
        exact ⟨hled, hbnd, hnd, hnm⟩
      · rcases hap : allocPop ctx with ⟨ok, ctx1⟩
        rw [hap] at h hap1 hap2 hap3
        dsimp only at h hap1 hap2 hap3
        cases ok with
        | false => simp at h
        | true =>
            rw [if_neg (by simp)] at h
            rcases hfold : attrs.foldl (processAddrAttr ifa)
                (freshAddrStorage ctx1.nextId ifs0, aware) with ⟨ifs2, aware2⟩
            rw [hfold] at h
            dsimp only at h
            simp only [Except.ok.injEq, Prod.mk.injEq] at h
            obtain ⟨rfl, rfl⟩ := h
            have hid2 : ifs2.id = ctx1.nextId := by
              have hcopy := foldl_addr_id ifa attrs
                (freshAddrStorage ctx1.nextId ifs0, aware)
              rw [hfold] at hcopy
              exact hcopy
            split
            · exact CtxInv_commit _ _ (by dsimp only; omega)
                (by dsimp only; rw [hap2, hap3]; intro i hi;
                    exact hled i (by omega))
                (by dsimp only; rw [hap2]; intro s hs;
                    have := hbnd s hs; omega)
                (by dsimp only; rw [hap2]; exact hnd)
                (by dsimp only; rw [hap2]; exact hnm)
            · exact CtxInv_commit _ _ (by dsimp only; omega)
                (by dsimp only; rw [hap2, hap3]; intro i hi;
                    exact hled i (by omega))
                (by dsimp only; rw [hap2]; intro s hs;
                    have := hbnd s hs; omega)
                (by dsimp only; rw [hap2]; exact hnd)
                (by dsimp only; rw [hap2]; exact hnm)

theorem processChunk_inv (msgs : List NlMsg) (ctx : Ctx) (aware : Bool)
    (hinv : CtxInv ctx) : CtxInv (stepCtx (processChunk ctx aware msgs)) := by
  induction msgs generalizing ctx aware with
  | nil => exact hinv
  | cons m rest ih =>
      cases m with
      | done => exact hinv
      | errorFrame e => exact hinv
      | newlink ifi attrs =>
          simp only [processChunk]
          rcases hnl : nl_msg_to_ifaddr ctx aware (.newlink ifi attrs) with
            e | ⟨ctx1, aw1⟩
          · exact hinv
          · exact ih ctx1 aw1 (nl_msg_inv ctx aware _ ctx1 aw1 hnl hinv)
      | newaddr ifa attrs =>
          simp only [processChunk]
          rcases hnl : nl_msg_to_ifaddr ctx aware (.newaddr ifa attrs) with
            e | ⟨ctx1, aw1⟩
          · exact hinv
          · exact ih ctx1 aw1 (nl_msg_inv ctx aware _ ctx1 aw1 hnl hinv)

theorem recv_loop_inv (chunks : List RecvChunk) (ctx : Ctx) (aware : Bool)
    (hinv : CtxInv ctx) :
    CtxInv (__netlink_recv_loop ctx aware chunks).2.1 := by
  induction chunks generalizing ctx aware with
  | nil => exact hinv
  | cons c rest ih =>
      cases c with
      | rfail e => exact hinv
      | chunk msgs =>
          simp only [__netlink_recv_loop]
          have hstep := processChunk_inv msgs ctx aware hinv
          rcases hpc : processChunk ctx aware msgs with ⟨c', a'⟩ | ⟨e, c', a'⟩ |
            ⟨c', a'⟩ <;> rw [hpc] at hstep
          · exact hstep
          · exact hstep
          · exact ih c' a' hstep

theorem netlink_recv_inv (send1 : SendAttempt) (ctx : Ctx) (aware : Bool)
    (chunks : List RecvChunk) (hinv : CtxInv ctx) :
    CtxInv (__netlink_recv send1 ctx aware chunks).2.1 := by
  simp only [__netlink_recv]
  rcases hs : (__netlink_send send1 []).1 with e | n
  · exact hinv
  · exact recv_loop_inv chunks ctx aware hinv

theorem rtnl_enumerate_inv (inp : EnumInput) :
    CtxInv (__rtnl_enumerate inp).2.1 := by
  simp only [__rtnl_enumerate]
  rcases hsf : inp.sockFail with - | e
  · by_cases hstrict : (!inp.strictOk) = true ∧ inp.netns_id ≥ 0
    · rw [if_pos hstrict]
      exact ctx0_inv _
    · rw [if_neg hstrict]
      have h1inv := netlink_recv_inv inp.linkSend (ctx0 inp.allocs) false
        inp.linkChunks (ctx0_inv _)
      rcases h1 : __netlink_recv inp.linkSend (ctx0 inp.allocs) false
          inp.linkChunks with ⟨r1, ctx1, aw1⟩
      rw [h1] at h1inv
      cases r1 with
      | error e => exact h1inv
      | ok u =>
          exact netlink_recv_inv inp.addrSend ctx1 false inp.addrChunks h1inv
  · exact ctx0_inv _

/-- C4: a failing enumeration call hands no list to the caller and
releases every interface record built so far — each allocated record id
is in the freed ledger when the error is returned. -/
theorem C4_enum_failure_releases_all (inp : EnumInput)
    (hfail : (netns_getifaddrs inp).retval < 0) :
    (netns_getifaddrs inp).ifap = none ∧
    ∀ i, i < (netns_getifaddrs inp).nextId →
      i ∈ (netns_getifaddrs inp).freed := by
  have hinv := rtnl_enumerate_inv inp
  unfold netns_getifaddrs at hfail ⊢
  rcases he : __rtnl_enumerate inp with ⟨r, ctx, aware⟩
  rw [he] at hinv hfail
  cases r with
  | error e =>
      refine ⟨rfl, ?_⟩
      intro i hi
      obtain ⟨hled, -, -, -⟩ := hinv
      rcases hled i hi with h | h
      · exact List.mem_append.mpr (.inl h)
      · exact List.mem_append.mpr (.inr h)
  | ok u => exact absurd (show (0 : Int) < 0 from hfail) (by decide)

theorem C4_enum_failure_releases_all_witness :
    (netns_getifaddrs ⟨none, true, 0, -1, .sok 1,
        [RecvChunk.chunk [NlMsg.newlink ⟨1, 3, 1⟩ [LinkAttr.ifname "lo" 3],
          NlMsg.errorFrame (-19)]], .sok 1, [], []⟩).ifap = none ∧
    (0 : Nat) ∈ (netns_getifaddrs ⟨none, true, 0, -1, .sok 1,
        [RecvChunk.chunk [NlMsg.newlink ⟨1, 3, 1⟩ [LinkAttr.ifname "lo" 3],
          NlMsg.errorFrame (-19)]], .sok 1, [], []⟩).freed :=
  ⟨(C4_enum_failure_releases_all _ (by decide)).1,
   (C4_enum_failure_releases_all _ (by decide)).2 0 (by decide)⟩

/-- C7: every record of a successfully returned interface list appears
exactly once — the allocation ids along the output chain are pairwise
distinct, so no record is linked into the list twice. -/
theorem C7_enum_output_unique (inp : EnumInput) (l : List Storage)
    (h : (netns_getifaddrs inp).ifap = some l) :
    (l.map Storage.id).Nodup := by
  have hinv := rtnl_enumerate_inv inp
  unfold netns_getifaddrs at h
  rcases he : __rtnl_enumerate inp with ⟨r, ctx, aware⟩
  rw [he] at hinv h
  cases r with
  | error e =>
      exact Option.noConfusion
        (show (none : Option (List Storage)) = some l from h)
  | ok u =>
      obtain ⟨-, -, hnd, -⟩ := hinv
      obtain rfl := Option.some.inj (show some ctx.recs = some l from h)
      exact hnd

theorem C7_enum_output_unique_witness :
    (([⟨0, 1, some "lo", 1, 0, 3, 0, 0, 0, [], none, none,
        none⟩] : List Storage).map Storage.id).Nodup :=
  C7_enum_output_unique
    ⟨none, true, 0, -1, .sok 1,
      [RecvChunk.chunk [NlMsg.newlink ⟨1, 3, 1⟩ [LinkAttr.ifname "lo" 3],
        NlMsg.done]], .sok 1, [RecvChunk.chunk [NlMsg.done]], []⟩
    [⟨0, 1, some "lo", 1, 0, 3, 0, 0, 0, [], none, none, none⟩] rfl

/-- C8: an address frame whose ifindex matches no committed link record
is discarded before any allocation and changes nothing; a record that
resolved no name is freed by the commit step instead of being linked;
and consequently every record of a returned list carries a name. -/
theorem C8_unmatched_addr_discarded :
    (∀ (ctx : Ctx) (aware : Bool) (ifa : AddrInfo) (attrs : List AddrAttr),
      hashLookup ctx.hash ifa.ifa_index = none →
      nl_msg_to_ifaddr ctx aware (NlMsg.newaddr ifa attrs) = .ok (ctx, aware)) ∧
    (∀ (ctx : Ctx) (ifs : Storage), ifs.name = none →
      (commitRecord ctx ifs).recs = ctx.recs ∧
      ifs.id ∈ (commitRecord ctx ifs).freed) ∧
    (∀ (inp : EnumInput) (l : List Storage),
      (netns_getifaddrs inp).ifap = some l →
      ∀ s ∈ l, s.name.isSome = true) := by
  refine ⟨?_, ?_, ?_⟩
  · intro ctx aware ifa attrs h
    simp only [nl_msg_to_ifaddr, h]
  · intro ctx ifs h
    unfold commitRecord
    rw [if_neg (by simp [h])]
    exact ⟨rfl, by simp⟩
  · intro inp l h
    have hinv := rtnl_enumerate_inv inp
    unfold netns_getifaddrs at h
    rcases he : __rtnl_enumerate inp with ⟨r, ctx, aware⟩
    rw [he] at hinv h
    cases r with
    | error e =>
        exact Option.noConfusion
          (show (none : Option (List Storage)) = some l from h)
    | ok u =>
        obtain ⟨-, -, -, hnm⟩ := hinv
        obtain rfl := Option.some.inj (show some ctx.recs = some l from h)
        exact hnm

theorem C8_unmatched_addr_discarded_witness :
    nl_msg_to_ifaddr (ctx0 []) false (NlMsg.newaddr ⟨5, 2, 24⟩ []) =
      .ok (ctx0 [], false) :=
  C8_unmatched_addr_discarded.1 (ctx0 []) false ⟨5, 2, 24⟩ [] rfl

/-- C5 counterexample: a dump reply that is an error frame with embedded
code `-19` (`-ENODEV`) makes the enumeration fail with the generic
`EINVAL` (22), not the embedded 19 — refuting "both paths surface the
code embedded in the error frame". -/
theorem C5_counterexample :
    (netns_getifaddrs ⟨none, true, 0, -1, .sok 1,
        [RecvChunk.chunk [NlMsg.errorFrame (-19)]], .sok 1, [], []⟩).errnoV =
      EINVAL ∧
    (netns_getifaddrs ⟨none, true, 0, -1, .sok 1,
        [RecvChunk.chunk [NlMsg.errorFrame (-19)]], .sok 1, [], []⟩).retval =
      -1 ∧
    EINVAL ≠ 19 :=
  ⟨by decide, by decide, by decide⟩

/-- C5 (amended): the single-reply transaction path surfaces the error
code embedded in an error frame unchanged, but the frame-by-frame
dump-consumption path substitutes the generic InvalidArgument (`EINVAL`)
for every error frame, discarding the embedded code. -/
theorem C5_error_code_amended :
    (∀ (n : Nat) (errnoIn : Int) (ans : NlAnswer),
      ans.nlmsg_type = NLMSG_ERROR → ans.err_error < 0 →
      netlink_transaction (.ok n) (.ok ans) errnoIn = (-1, -ans.err_error)) ∧
    (∀ (ctx : Ctx) (aware : Bool) (errCode : Int) (rest : List NlMsg),
      processChunk ctx aware (NlMsg.errorFrame errCode :: rest) =
        .failed EINVAL ctx aware) := by
  constructor
  · intro n errnoIn ans h1 h2
    simp only [netlink_transaction]
    rw [if_pos h1, if_pos h2]
  · intro ctx aware errCode rest
    rfl

theorem C5_error_code_amended_witness :
    (⟨NLMSG_ERROR, -19⟩ : NlAnswer).nlmsg_type = NLMSG_ERROR ∧
    (⟨NLMSG_ERROR, -19⟩ : NlAnswer).err_error < 0 ∧
    netlink_transaction (.ok 1) (.ok ⟨NLMSG_ERROR, -19⟩) 0 =
      (-1, -(-19 : Int)) :=
  ⟨rfl, by decide,
   C5_error_code_amended.1 1 0 ⟨NLMSG_ERROR, -19⟩ rfl (by decide)⟩

/-- C9 counterexample: when the single `sendmsg` fails with `EINTR` and
a retry would have succeeded, `__netlink_send` still returns the
failure after one call — while the spec-modelled retrying send returns
success — refuting "retries transparently on EINTR". -/
theorem C9_counterexample :
    __netlink_send SendAttempt.sintr [SendAttempt.sok 5] =
      (Except.error EINTR, 1) ∧
    netlink_send_spec SendAttempt.sintr [SendAttempt.sok 5] =
      (Except.ok 5, 2) ∧
    (Except.error EINTR : Except Nat Nat) ≠ Except.ok 5 :=
  ⟨rfl, rfl, fun h => Except.noConfusion h⟩

/-- C9 (amended): the netlink send operation writes the frame exactly
once and returns failure without retry for every error, including
interrupted-call (EINTR); the outcome never depends on further kernel
outcomes. -/
theorem C9_send_writes_once_amended :
    (∀ (first : SendAttempt) (rest : List SendAttempt),
      (__netlink_send first rest).2 = 1 ∧
      __netlink_send first rest = __netlink_send first []) ∧
    (∀ rest, __netlink_send SendAttempt.sintr rest = (Except.error EINTR, 1)) ∧
    (∀ rest e, __netlink_send (SendAttempt.sfail e) rest =
      (Except.error e, 1)) ∧
    (∀ rest n, __netlink_send (SendAttempt.sok n) rest = (Except.ok n, 1)) := by
  refine ⟨fun first rest => ?_, fun rest => rfl, fun rest e => rfl,
          fun rest n => rfl⟩
  cases first <;> exact ⟨rfl, rfl⟩

end Lxd
